import Mathlib

/-!
Verification development for the Medicinal-Plant-Leaf-Identification repository.

Shallow embedding of `app/model_loader.py` (`predict_image`,
`preprocess_image_if_available`) and of the orchestration in `app/app.py`
(preprocess, then predict). External effects (TensorFlow model inference,
image decoding, the `rembg` background remover, every OpenCV primitive) are
oracle functions supplied as parameters; probabilities are modelled as
rationals; Python dict semantics (insertion-ordered iteration, last-write-wins
on duplicate keys) are modelled explicitly.
-/

namespace MedicinalLeaf

/-- The error conditions `predict_image` can raise: the two explicit
`RuntimeError`s of model_loader.py lines 43 and 57, plus an uncaught
exception from `image.load_img` on an undecodable file (line 45). -/
inductive PredError where
  | noModelsAvailable
  | predictionFailed
  | imageLoadFailed
deriving DecidableEq, Repr

/-- Python dict insertion with overwrite semantics on an
insertion-ordered association list: an existing key keeps its position but
its value is replaced; a fresh key is appended. -/
def invUpdate (inv : List (Int × String)) (v : Int) (k : String) :
    List (Int × String) :=
  if inv.any (fun p => p.1 = v) then
    inv.map (fun p => if p.1 = v then (v, k) else p)
  else inv ++ [(v, k)]

/-- `inv = \x7bv: k for k, v in CLASS_MAP.items()\x7d` (model_loader.py line 65):
invert the class map, iterating in insertion order, later entries
overwriting earlier ones that share the same integer value. -/
def buildInv (m : List (String × Int)) : List (Int × String) :=
  m.foldl (fun inv p => invUpdate inv p.2 p.1) []

/-- `inv.get(idx, default)` (model_loader.py line 66). -/
def dictGet (inv : List (Int × String)) (idx : Int) (dflt : String) : String :=
  match inv.find? (fun p => p.1 = idx) with
  | some p => p.2
  | none => dflt

/-- Lines 64-68 of model_loader.py: map the predicted index to a class name
when CLASS_MAP is non-empty, else render the index as a string. -/
def resolveLabel (classMap : List (String × Int)) (idx : Nat) : String :=
  if !classMap.isEmpty then
    dictGet (buildInv classMap) (Int.ofNat idx) (toString idx)
  else toString idx

/-- `int(np.argmax(avg))` (line 60): index of the first occurrence of the
maximum element; 0 on the empty list (where NumPy would raise). -/
def argmaxIdx : List ℚ → Nat
  | [] => 0
  | [_] => 0
  | x :: y :: rest =>
    if ((y :: rest).getD (argmaxIdx (y :: rest)) 0) > x then
      argmaxIdx (y :: rest) + 1
    else 0

/-- `float(np.max(avg))` (line 61): maximum element; 0 on the empty list. -/
def maxVal : List ℚ → ℚ
  | [] => 0
  | [x] => x
  | x :: y :: rest => max x (maxVal (y :: rest))

/-- Column sum of a list of probability vectors at index `i`
(out-of-range entries read as 0). -/
def sumAt (vs : List (List ℚ)) (i : Nat) : ℚ :=
  (vs.map (fun v => v.getD i 0)).sum

/-- Column mean at index `i`: the unweighted element-wise average. -/
def avgAt (vs : List (List ℚ)) (i : Nat) : ℚ :=
  sumAt vs i / (vs.length : ℚ)

/-- `avg = np.mean(preds, axis=0)` (line 59): element-wise unweighted mean;
the output length is the length of the first vector (NumPy requires all
rows to have equal length). -/
def avgList (vs : List (List ℚ)) : List ℚ :=
  (List.range (vs.headD []).length).map (fun i => avgAt vs i)

/-- `predict_image` (model_loader.py lines 37-69).
`loadImg` is the oracle for `image.load_img` + `img_to_array/255` +
`expand_dims` on the file content (lines 45-47, may raise on a bad file);
each element of `models` is a loaded classifier as the oracle for
`m.predict(x)` on the prepared tensor (`none` = the call raised, line 54).
Returns the `(label, confidence)` pair of line 69 or the raised error. -/
def predict_image {T Img : Type} (loadImg : Img → Except Unit T)
    (models : List (T → Option (List ℚ))) (classMap : List (String × Int))
    (imgPath : Img) : Except PredError (String × ℚ) :=
  if models.isEmpty then
    Except.error PredError.noModelsAvailable
  else
    match loadImg imgPath with
    | Except.error _ => Except.error PredError.imageLoadFailed
    | Except.ok x =>
      let preds := models.filterMap (fun m => m x)
      if preds.isEmpty then
        Except.error PredError.predictionFailed
      else
        let avg := avgList preds
        let idx := argmaxIdx avg
        let confidence := maxVal avg
        let label := resolveLabel classMap idx
        Except.ok (label, confidence)

/-- The OpenCV primitives used by the fallback contour crop
(model_loader.py lines 91-104), as oracles. Fallible steps return
`Except Unit _` (`error` = the cv2 call raised); `imread` additionally
returns `none` for an unreadable file (line 92). `contourArea` and
`boundingRect` are the pure key/geometry functions; `cropTo` is NumPy
slicing `img[y:y+h, x:x+w]`, which never raises. -/
structure CV2 (Img Mat Contour : Type) where
  imread : Img → Except Unit (Option Mat)
  cvtColorGray : Mat → Except Unit Mat
  gaussianBlur5 : Mat → Except Unit Mat
  thresholdOtsu : Mat → Except Unit Mat
  findContoursExt : Mat → Except Unit (List Contour)
  contourArea : Contour → ℚ
  boundingRect : Contour → Nat × Nat × Nat × Nat
  cropTo : Mat → Nat × Nat × Nat × Nat → Mat
  resize224 : Mat → Except Unit Mat
  encodeWrite : Mat → Except Unit Img

/-- `max(contours, key=cv2.contourArea)` (line 100): Python `max` keeps the
current best on ties, so the first element of maximal key is returned. -/
def maxByKey {α : Type} (f : α → ℚ) : α → List α → α
  | best, [] => best
  | best, x :: rest => maxByKey f (if f x > f best then x else best) rest

/-- The fallback branch of `preprocess_image_if_available`
(model_loader.py lines 88-105): grayscale, 5x5 Gaussian blur, Otsu
threshold, external contours, largest contour, bounding box, crop of the
original image, resize to 224x224, write back. Result: `ok (some out)` =
the file was overwritten with `out` and True returned; `ok none` = an
explicit `return False` (unreadable file or no contours); `error` = some
step raised (caught by the enclosing `except` at line 106). -/
def fallbackCrop {Img Mat Contour : Type} (cv : CV2 Img Mat Contour)
    (file : Img) : Except Unit (Option Img) := do
  let mimg ← cv.imread file
  match mimg with
  | none => pure none
  | some img => do
    let gray ← cv.cvtColorGray img
    let blur ← cv.gaussianBlur5 gray
    let th ← cv.thresholdOtsu blur
    let contours ← cv.findContoursExt th
    match contours with
    | [] => pure none
    | c0 :: cs => do
      let c := maxByKey cv.contourArea c0 cs
      let r := cv.boundingRect c
      let crop := cv.cropTo img r
      let resized ← cv.resize224 crop
      let out ← cv.encodeWrite resized
      pure (some out)

/-- `preprocess_image_if_available` (model_loader.py lines 72-107).
`primary` is the oracle for the whole rembg branch (lines 78-85: import,
read bytes, `remove`, write back) — `ok out` means the file was rewritten
with `out`, `error` means rembg is unavailable or some step raised.
Returns the Boolean result of the Python function together with the file
content after the call. -/
def preprocess_image_if_available {Img Mat Contour : Type}
    (primary : Img → Except Unit Img) (cv : CV2 Img Mat Contour)
    (file : Img) : Bool × Img :=
  match primary file with
  | Except.ok out => (true, out)
  | Except.error _ =>
    match fallbackCrop cv file with
    | Except.ok (some out) => (true, out)
    | Except.ok none => (false, file)
    | Except.error _ => (false, file)

/-- The orchestration of app.py's upload / predict_base64 routes
(lines 157-168 / 222-231): run `preprocess_image_if_available` on the saved
file (its exceptions are swallowed; in this model it is total), then run
`predict_image` on the resulting file content, propagating its errors. -/
def classify {T Img Mat Contour : Type} (primary : Img → Except Unit Img)
    (cv : CV2 Img Mat Contour) (loadImg : Img → Except Unit T)
    (models : List (T → Option (List ℚ))) (classMap : List (String × Int))
    (file : Img) : Except PredError (String × ℚ) :=
  predict_image loadImg models classMap
    (preprocess_image_if_available primary cv file).2

/-- A `CV2` environment in which no OpenCV primitive raises, built from
pure step functions; used to state what the fallback computes on a
successful run. -/
def pureCV2 {Img Mat Contour : Type} (imread : Img → Option Mat)
    (gray blur otsu : Mat → Mat) (contours : Mat → List Contour)
    (area : Contour → ℚ) (brect : Contour → Nat × Nat × Nat × Nat)
    (crop : Mat → Nat × Nat × Nat × Nat → Mat) (resize : Mat → Mat)
    (enc : Mat → Img) : CV2 Img Mat Contour where
  imread f := Except.ok (imread f)
  cvtColorGray m := Except.ok (gray m)
  gaussianBlur5 m := Except.ok (blur m)
  thresholdOtsu m := Except.ok (otsu m)
  findContoursExt m := Except.ok (contours m)
  contourArea := area
  boundingRect := brect
  cropTo := crop
  resize224 m := Except.ok (resize m)
  encodeWrite m := Except.ok (enc m)

/-! ### Helper lemmas: arg-max and maximum of a rational list -/

theorem argmaxIdx_cons_cons (x y : ℚ) (rest : List ℚ) :
    argmaxIdx (x :: y :: rest) =
      if ((y :: rest).getD (argmaxIdx (y :: rest)) 0) > x then
        argmaxIdx (y :: rest) + 1
      else 0 := rfl

theorem maxVal_cons_cons (x y : ℚ) (rest : List ℚ) :
    maxVal (x :: y :: rest) = max x (maxVal (y :: rest)) := rfl

theorem argmaxIdx_lt_length : (l : List ℚ) → l ≠ [] → argmaxIdx l < l.length
  | [], h => absurd rfl h
  | [_], _ => Nat.zero_lt_one
  | x :: y :: rest, _ => by
    have ih := argmaxIdx_lt_length (y :: rest) (by simp)
    rw [argmaxIdx_cons_cons]
    by_cases hc : ((y :: rest).getD (argmaxIdx (y :: rest)) 0) > x
    · rw [if_pos hc]
      simp only [List.length_cons] at ih ⊢
      omega
    · rw [if_neg hc]
      simp

theorem getD_le_argmax : (l : List ℚ) → (i : Nat) → i < l.length →
    l.getD i 0 ≤ l.getD (argmaxIdx l) 0
  | [], _, hi => by simp at hi
  | [x], i, hi => by
    match i with
    | 0 => exact le_refl _
    | i + 1 => simp at hi
  | x :: y :: rest, i, hi => by
    rw [argmaxIdx_cons_cons]
    by_cases hc : ((y :: rest).getD (argmaxIdx (y :: rest)) 0) > x
    · rw [if_pos hc]
      match i with
      | 0 =>
        rw [List.getD_cons_zero, List.getD_cons_succ]
        exact le_of_lt hc
      | i + 1 =>
        rw [List.getD_cons_succ, List.getD_cons_succ]
        exact getD_le_argmax (y :: rest) i (by simpa using hi)
    · rw [if_neg hc]
      match i with
      | 0 => exact le_refl _
      | i + 1 =>
        have h1 := getD_le_argmax (y :: rest) i (by simpa using hi)
        have h2 : (y :: rest).getD (argmaxIdx (y :: rest)) 0 ≤ x := le_of_not_lt hc
        rw [List.getD_cons_succ, List.getD_cons_zero]
        exact le_trans h1 h2

theorem getD_lt_argmax_of_lt : (l : List ℚ) → (i : Nat) → i < argmaxIdx l →
    l.getD i 0 < l.getD (argmaxIdx l) 0
  | [], _, hi => by simp [argmaxIdx] at hi
  | [x], i, hi => by simp [argmaxIdx] at hi
  | x :: y :: rest, i, hi => by
    rw [argmaxIdx_cons_cons] at hi ⊢
    by_cases hc : ((y :: rest).getD (argmaxIdx (y :: rest)) 0) > x
    · rw [if_pos hc] at hi ⊢
      match i with
      | 0 =>
        rw [List.getD_cons_zero, List.getD_cons_succ]
        exact hc
      | i + 1 =>
        rw [List.getD_cons_succ, List.getD_cons_succ]
        exact getD_lt_argmax_of_lt (y :: rest) i (by omega)
    · rw [if_neg hc] at hi
      omega

theorem maxVal_eq_getD_argmax : (l : List ℚ) → l ≠ [] →
    maxVal l = l.getD (argmaxIdx l) 0
  | [], h => absurd rfl h
  | [x], _ => rfl
  | x :: y :: rest, _ => by
    have ih := maxVal_eq_getD_argmax (y :: rest) (by simp)
    rw [maxVal_cons_cons, ih, argmaxIdx_cons_cons]
    by_cases hc : ((y :: rest).getD (argmaxIdx (y :: rest)) 0) > x
    · rw [if_pos hc, List.getD_cons_succ]
      exact max_eq_right (le_of_lt hc)
    · rw [if_neg hc, List.getD_cons_zero]
      exact max_eq_left (le_of_not_lt hc)

/-! ### Helper lemmas: the element-wise mean -/

theorem getD_map_range {α : Type} (f : Nat → α) (n j : Nat) (d : α)
    (hj : j < n) : ((List.range n).map f).getD j d = f j := by
  rw [List.getD_eq_getElem?_getD, List.getElem?_map, List.getElem?_range hj]
  rfl

theorem avgList_length (vs : List (List ℚ)) :
    (avgList vs).length = (vs.headD []).length := by
  simp [avgList]

theorem avgList_getD (vs : List (List ℚ)) (j : Nat)
    (hj : j < (vs.headD []).length) :
    (avgList vs).getD j 0 = sumAt vs j / (vs.length : ℚ) := by
  rw [avgList, getD_map_range _ _ _ _ hj, avgAt]

theorem map_getD_range_self (v : List ℚ) :
    (List.range v.length).map (fun j => v.getD j 0) = v := by
  induction v with
  | nil => simp
  | cons x xs ih =>
    rw [List.length_cons, List.range_succ_eq_map]
    simp only [List.map_cons, List.getD_cons_zero, List.map_map]
    have hfun : ((fun j => (x :: xs).getD j 0) ∘ Nat.succ) =
        fun j => xs.getD j 0 := by
      funext j
      simp [Function.comp]
    rw [hfun, ih]

theorem sum_range_sumAt (vs : List (List ℚ)) (n : Nat)
    (hlen : ∀ v ∈ vs, v.length = n) :
    ((List.range n).map (fun j => sumAt vs j)).sum = (vs.map List.sum).sum := by
  induction vs with
  | nil =>
    simp [sumAt]
  | cons v vs ih =>
    have hv : v.length = n := hlen v (by simp)
    have hrest : ∀ w ∈ vs, w.length = n := fun w hw => hlen w (by simp [hw])
    have expand : ((List.range n).map (fun j => sumAt (v :: vs) j)) =
        (List.range n).map (fun j => v.getD j 0 + sumAt vs j) := by
      simp [sumAt]
    rw [expand, List.sum_map_add, ih hrest]
    have hhead : ((List.range n).map (fun j => v.getD j 0)).sum = v.sum := by
      rw [← hv, map_getD_range_self]
    rw [hhead]
    simp

theorem sum_map_sum_eq_length (vs : List (List ℚ))
    (hsum : ∀ v ∈ vs, v.sum = 1) :
    (vs.map List.sum).sum = (vs.length : ℚ) := by
  induction vs with
  | nil => simp
  | cons v vs ih =>
    have h1 : v.sum = 1 := hsum v (by simp)
    have h2 : ∀ w ∈ vs, w.sum = 1 := fun w hw => hsum w (by simp [hw])
    simp [h1, ih h2, add_comm]

theorem getD_nonneg (v : List ℚ) (j : Nat) (h : ∀ x ∈ v, 0 ≤ x) :
    0 ≤ v.getD j 0 := by
  rcases Nat.lt_or_ge j v.length with hj | hj
  · rw [List.getD_eq_getElem _ _ hj]
    exact h _ (List.getElem_mem hj)
  · rw [List.getD_eq_default _ _ hj]

theorem sumAt_nonneg (vs : List (List ℚ)) (j : Nat)
    (h : ∀ v ∈ vs, ∀ x ∈ v, 0 ≤ x) : 0 ≤ sumAt vs j := by
  apply List.sum_nonneg
  intro a ha
  rcases List.mem_map.mp ha with ⟨v, hv, rfl⟩
  exact getD_nonneg v j (h v hv)

/-! ### Helper lemmas: Python dict inversion (last-write-wins) -/

theorem find?_map_invEntry (inv : List (Int × String)) (v idx : Int)
    (k : String) (hne : v ≠ idx) :
    (inv.map (fun p => if p.1 = v then (v, k) else p)).find?
        (fun p => p.1 = idx) =
      inv.find? (fun p => p.1 = idx) := by
  induction inv with
  | nil => rfl
  | cons a inv ih =>
    by_cases ha : a.1 = v
    · rw [List.map_cons, if_pos ha]
      rw [List.find?_cons_of_neg _ (by simp [hne]),
        List.find?_cons_of_neg _ (by simp [ha, hne])]
      exact ih
    · rw [List.map_cons, if_neg ha]
      by_cases hi : a.1 = idx
      · rw [List.find?_cons_of_pos _ (by simp [hi]),
          List.find?_cons_of_pos _ (by simp [hi])]
      · rw [List.find?_cons_of_neg _ (by simp [hi]),
          List.find?_cons_of_neg _ (by simp [hi])]
        exact ih

theorem find?_map_invEntry_self (inv : List (Int × String)) (v : Int)
    (k : String) (hany : inv.any (fun p => p.1 = v) = true) :
    (inv.map (fun p => if p.1 = v then (v, k) else p)).find?
        (fun p => p.1 = v) = some (v, k) := by
  induction inv with
  | nil => simp at hany
  | cons a inv ih =>
    by_cases ha : a.1 = v
    · rw [List.map_cons, if_pos ha, List.find?_cons_of_pos _ (by simp)]
    · rw [List.map_cons, if_neg ha, List.find?_cons_of_neg _ (by simp [ha])]
      apply ih
      simp only [List.any_cons, Bool.or_eq_true, decide_eq_true_eq] at hany
      rcases hany with h | h
      · exact absurd h ha
      · exact h

theorem find?_invUpdate (inv : List (Int × String)) (v : Int) (k : String)
    (idx : Int) :
    (invUpdate inv v k).find? (fun p => p.1 = idx) =
      if v = idx then some (v, k) else inv.find? (fun p => p.1 = idx) := by
  rw [invUpdate]
  by_cases hany : inv.any (fun p => p.1 = v) = true
  · rw [if_pos hany]
    by_cases hv : v = idx
    · subst hv
      rw [if_pos rfl]
      exact find?_map_invEntry_self inv v k hany
    · rw [if_neg hv]
      exact find?_map_invEntry inv v idx k hv
  · rw [if_neg hany, List.find?_append]
    by_cases hv : v = idx
    · subst hv
      rw [if_pos rfl]
      have hnone : inv.find? (fun p => p.1 = v) = none := by
        rw [List.find?_eq_none]
        intro p hp
        simp only [decide_eq_true_eq]
        intro hpv
        exact hany (List.any_eq_true.mpr ⟨p, hp, by simp [hpv]⟩)
      rw [hnone, List.find?_cons_of_pos _ (by simp)]
      rfl
    · rw [if_neg hv]
      have h2 : ([(v, k)] : List (Int × String)).find?
          (fun p => p.1 = idx) = none := by
        simp [hv]
      rw [h2]
      simp

theorem find?_buildInv_aux :
    ∀ (m : List (String × Int)) (inv : List (Int × String)) (idx : Int),
    ((m.foldl (fun i p => invUpdate i p.2 p.1) inv).find?
        (fun p => p.1 = idx)) =
      match m.reverse.find? (fun p => p.2 = idx) with
      | some p => some (idx, p.1)
      | none => inv.find? (fun p => p.1 = idx)
  | [], inv, idx => by simp
  | a :: m, inv, idx => by
    rw [List.foldl_cons, find?_buildInv_aux m (invUpdate inv a.2 a.1) idx,
      List.reverse_cons, List.find?_append]
    cases hfind : m.reverse.find? (fun p => p.2 = idx) with
    | none =>
      simp only [Option.none_or]
      rw [find?_invUpdate]
      by_cases hv : a.2 = idx
      · rw [if_pos hv, List.find?_cons_of_pos _ (by simp [hv])]
        simp [hv]
      · rw [if_neg hv, List.find?_cons_of_neg _ (by simp [hv])]
        rfl
    | some p =>
      simp only [Option.or_some]

theorem dictGet_buildInv (m : List (String × Int)) (idx : Int) (d : String) :
    dictGet (buildInv m) idx d =
      match m.reverse.find? (fun p => p.2 = idx) with
      | some p => p.1
      | none => d := by
  simp only [dictGet, buildInv]
  rw [find?_buildInv_aux]
  cases m.reverse.find? (fun p => p.2 = idx) <;> rfl

/-! ### Helper lemmas: evaluation of predict_image and the fallback chain -/

theorem pure_eq_ok {ε α : Type} (a : α) :
    (pure a : Except ε α) = Except.ok a := rfl

theorem bind_ok_eq {ε α β : Type} (a : α) (f : α → Except ε β) :
    (Except.ok a >>= f : Except ε β) = f a := rfl

theorem bind_error_eq {ε α β : Type} (e : ε) (f : α → Except ε β) :
    (Except.error e >>= f : Except ε β) = Except.error e := rfl

theorem predict_image_ok {T Img : Type} (loadImg : Img → Except Unit T)
    (models : List (T → Option (List ℚ))) (classMap : List (String × Int))
    (file : Img) (t : T) (vs : List (List ℚ))
    (hL : loadImg file = Except.ok t)
    (hp : models.filterMap (fun m => m t) = vs) (hvs : vs ≠ []) :
    predict_image loadImg models classMap file =
      Except.ok (resolveLabel classMap (argmaxIdx (avgList vs)),
        maxVal (avgList vs)) := by
  have hm : models.isEmpty = false := by
    rcases models with _ | ⟨m, ms⟩
    · rw [List.filterMap_nil] at hp
      exact absurd hp.symm hvs
    · rfl
  have hvs' : vs.isEmpty = false := by
    rcases vs with _ | ⟨v, vrest⟩
    · exact absurd rfl hvs
    · rfl
  simp [predict_image, hm, hL, hp, hvs']

theorem maxByKey_cons {α : Type} (f : α → ℚ) (best x : α) (rest : List α) :
    maxByKey f best (x :: rest) =
      maxByKey f (if f x > f best then x else best) rest := rfl

theorem maxByKey_mem {α : Type} (f : α → ℚ) :
    ∀ (best : α) (l : List α), maxByKey f best l = best ∨ maxByKey f best l ∈ l
  | _, [] => Or.inl rfl
  | best, x :: rest => by
    rw [maxByKey_cons]
    rcases maxByKey_mem f (if f x > f best then x else best) rest with h | h
    · rw [h]
      by_cases hc : f x > f best
      · right
        rw [if_pos hc]
        exact List.mem_cons_self x rest
      · left
        rw [if_neg hc]
    · right
      exact List.mem_cons_of_mem _ h

theorem le_maxByKey {α : Type} (f : α → ℚ) :
    ∀ (best : α) (l : List α),
      f best ≤ f (maxByKey f best l) ∧
        ∀ c ∈ l, f c ≤ f (maxByKey f best l)
  | _, [] => ⟨le_refl _, by simp⟩
  | best, x :: rest => by
    rw [maxByKey_cons]
    have ih := le_maxByKey f (if f x > f best then x else best) rest
    have hb : f best ≤ f (if f x > f best then x else best) := by
      by_cases hc : f x > f best
      · rw [if_pos hc]
        exact le_of_lt hc
      · rw [if_neg hc]
    have hx : f x ≤ f (if f x > f best then x else best) := by
      by_cases hc : f x > f best
      · rw [if_pos hc]
      · rw [if_neg hc]
        exact le_of_not_lt hc
    refine ⟨le_trans hb ih.1, ?_⟩
    intro c hc
    rcases List.mem_cons.mp hc with rfl | hc
    · exact le_trans hx ih.1
    · exact ih.2 c hc

theorem fallbackCrop_imread_none {Img Mat Contour : Type}
    (cv : CV2 Img Mat Contour) (file : Img)
    (h : cv.imread file = Except.ok none) :
    fallbackCrop cv file = Except.ok none := by
  simp [fallbackCrop, h, bind_ok_eq, pure_eq_ok]

theorem fallbackCrop_no_contours {Img Mat Contour : Type}
    (cv : CV2 Img Mat Contour) (file : Img) (img gray bl th : Mat)
    (h1 : cv.imread file = Except.ok (some img))
    (h2 : cv.cvtColorGray img = Except.ok gray)
    (h3 : cv.gaussianBlur5 gray = Except.ok bl)
    (h4 : cv.thresholdOtsu bl = Except.ok th)
    (h5 : cv.findContoursExt th = Except.ok ([] : List Contour)) :
    fallbackCrop cv file = Except.ok none := by
  simp [fallbackCrop, h1, h2, h3, h4, h5, bind_ok_eq, pure_eq_ok]

theorem fallbackCrop_success {Img Mat Contour : Type}
    (cv : CV2 Img Mat Contour) (file : Img) (img gray bl th : Mat)
    (c0 : Contour) (cs : List Contour) (r : Mat) (out : Img)
    (h1 : cv.imread file = Except.ok (some img))
    (h2 : cv.cvtColorGray img = Except.ok gray)
    (h3 : cv.gaussianBlur5 gray = Except.ok bl)
    (h4 : cv.thresholdOtsu bl = Except.ok th)
    (h5 : cv.findContoursExt th = Except.ok (c0 :: cs))
    (h6 : cv.resize224
        (cv.cropTo img (cv.boundingRect (maxByKey cv.contourArea c0 cs))) =
      Except.ok r)
    (h7 : cv.encodeWrite r = Except.ok out) :
    fallbackCrop cv file = Except.ok (some out) := by
  simp [fallbackCrop, h1, h2, h3, h4, h5, h6, h7, bind_ok_eq, pure_eq_ok]

/-! ### Claim theorems -/

/-- Claim C1: for every non-empty collection of surviving probability
vectors of equal positive length, `predict_image` returns the index that is
the arg-max of their unweighted element-wise mean — ties between equal
averaged values broken by the lowest index — and the returned confidence
equals the averaged vector's value at that index, with no re-normalization
after averaging. -/
theorem claim_C1_argmax_of_unweighted_mean {T Img : Type}
    (loadImg : Img → Except Unit T) (models : List (T → Option (List ℚ)))
    (classMap : List (String × Int)) (file : Img) (t : T)
    (vs : List (List ℚ)) (n : Nat)
    (hL : loadImg file = Except.ok t)
    (hp : models.filterMap (fun m => m t) = vs)
    (hvs : vs ≠ []) (hn : 0 < n) (hlen : ∀ v ∈ vs, v.length = n) :
    ∃ idx : Nat, idx < n ∧
      predict_image loadImg models classMap file =
        Except.ok (resolveLabel classMap idx,
          sumAt vs idx / (vs.length : ℚ)) ∧
      (∀ j, j < n →
        sumAt vs j / (vs.length : ℚ) ≤ sumAt vs idx / (vs.length : ℚ)) ∧
      (∀ j, j < idx →
        sumAt vs j / (vs.length : ℚ) < sumAt vs idx / (vs.length : ℚ)) := by
  have hhead : (vs.headD []).length = n := by
    rcases vs with _ | ⟨v, vrest⟩
    · exact absurd rfl hvs
    · exact hlen v (by simp)
  have hlenavg : (avgList vs).length = n := by rw [avgList_length, hhead]
  have havgne : avgList vs ≠ [] := by
    intro h
    rw [h] at hlenavg
    simp at hlenavg
    omega
  have hidxn : argmaxIdx (avgList vs) < n := by
    rw [← hlenavg]
    exact argmaxIdx_lt_length _ havgne
  refine ⟨argmaxIdx (avgList vs), hidxn, ?_, ?_, ?_⟩
  · rw [predict_image_ok loadImg models classMap file t vs hL hp hvs,
      maxVal_eq_getD_argmax _ havgne,
      avgList_getD vs _ (by rw [hhead]; exact hidxn)]
  · intro j hj
    have h1 := getD_le_argmax (avgList vs) j (by rw [hlenavg]; exact hj)
    rw [avgList_getD vs j (by rw [hhead]; exact hj),
      avgList_getD vs _ (by rw [hhead]; exact hidxn)] at h1
    exact h1
  · intro j hj
    have hjn : j < n := lt_trans hj hidxn
    have h1 := getD_lt_argmax_of_lt (avgList vs) j hj
    rw [avgList_getD vs j (by rw [hhead]; exact hjn),
      avgList_getD vs _ (by rw [hhead]; exact hidxn)] at h1
    exact h1

/-- Claim C1 witness: the spec's example — classifiers outputting
`[0.9, 0.1]` and `[0.3, 0.7]` give ensemble average `[0.6, 0.4]`, predicted
index 0 and confidence 0.6. -/
theorem claim_C1_witness :
    ∃ idx : Nat, idx < 2 ∧
      predict_image (fun _ : Unit => Except.ok ())
        [fun _ => some [(9 : ℚ)/10, 1/10], fun _ => some [(3 : ℚ)/10, 7/10]]
        [] () =
        Except.ok (resolveLabel [] idx,
          sumAt [[(9 : ℚ)/10, 1/10], [(3 : ℚ)/10, 7/10]] idx /
            (([[(9 : ℚ)/10, 1/10], [(3 : ℚ)/10, 7/10]].length : Nat) : ℚ)) ∧
      (∀ j, j < 2 →
        sumAt [[(9 : ℚ)/10, 1/10], [(3 : ℚ)/10, 7/10]] j /
            (([[(9 : ℚ)/10, 1/10], [(3 : ℚ)/10, 7/10]].length : Nat) : ℚ) ≤
          sumAt [[(9 : ℚ)/10, 1/10], [(3 : ℚ)/10, 7/10]] idx /
            (([[(9 : ℚ)/10, 1/10], [(3 : ℚ)/10, 7/10]].length : Nat) : ℚ)) ∧
      (∀ j, j < idx →
        sumAt [[(9 : ℚ)/10, 1/10], [(3 : ℚ)/10, 7/10]] j /
            (([[(9 : ℚ)/10, 1/10], [(3 : ℚ)/10, 7/10]].length : Nat) : ℚ) <
          sumAt [[(9 : ℚ)/10, 1/10], [(3 : ℚ)/10, 7/10]] idx /
            (([[(9 : ℚ)/10, 1/10], [(3 : ℚ)/10, 7/10]].length : Nat) : ℚ)) :=
  claim_C1_argmax_of_unweighted_mean (fun _ : Unit => Except.ok ())
    [fun _ => some [(9 : ℚ)/10, 1/10], fun _ => some [(3 : ℚ)/10, 7/10]]
    [] () () [[(9 : ℚ)/10, 1/10], [(3 : ℚ)/10, 7/10]] 2 rfl rfl
    (by simp) (by norm_num)
    (by
      intro v hv
      rcases List.mem_cons.mp hv with rfl | hv
      · rfl
      · rcases List.mem_cons.mp hv with rfl | hv
        · rfl
        · simp at hv)

/-- Claim C2: a runtime failure of one classifier is excluded without
aborting the prediction: with at least one surviving vector a
`(label, confidence)` result is still returned, and `predict_image` fails
with the `PredictionFailed` condition exactly when zero vectors were
produced after attempting all loaded classifiers. -/
theorem claim_C2_soft_fail_iff_all_fail {T Img : Type}
    (loadImg : Img → Except Unit T) (models : List (T → Option (List ℚ)))
    (classMap : List (String × Int)) (file : Img) (t : T)
    (hm : models ≠ []) (hL : loadImg file = Except.ok t) :
    (predict_image loadImg models classMap file =
        Except.error PredError.predictionFailed ↔
      models.filterMap (fun m => m t) = []) ∧
    (models.filterMap (fun m => m t) ≠ [] →
      ∃ l c, predict_image loadImg models classMap file =
        Except.ok (l, c)) := by
  have hme : models.isEmpty = false := by
    rcases models with _ | _
    · exact absurd rfl hm
    · rfl
  cases hpreds : models.filterMap (fun m => m t) with
  | nil =>
    have herr : predict_image loadImg models classMap file =
        Except.error PredError.predictionFailed := by
      simp [predict_image, hme, hL, hpreds]
    rw [herr]
    constructor
    · simp
    · intro h
      exact absurd rfl h
  | cons v vrest =>
    have hok := predict_image_ok loadImg models classMap file t (v :: vrest)
      hL hpreds (by simp)
    rw [hok]
    constructor
    · simp
    · intro _
      exact ⟨_, _, rfl⟩

/-- Claim C2 witness: two classifiers loaded, one raises at inference time;
the prediction still returns a result from the single surviving vector and
is not the `PredictionFailed` error. -/
theorem claim_C2_witness :
    (predict_image (fun _ : Unit => Except.ok ())
        [fun _ => none, fun _ => some [(1 : ℚ)]] [] () =
        Except.error PredError.predictionFailed ↔
      ([fun _ => none, fun _ => some [(1 : ℚ)]] :
          List (Unit → Option (List ℚ))).filterMap (fun m => m ()) = []) ∧
    (([fun _ => none, fun _ => some [(1 : ℚ)]] :
          List (Unit → Option (List ℚ))).filterMap (fun m => m ()) ≠ [] →
      ∃ l c, predict_image (fun _ : Unit => Except.ok ())
        [fun _ => none, fun _ => some [(1 : ℚ)]] [] () = Except.ok (l, c)) :=
  claim_C2_soft_fail_iff_all_fail (fun _ : Unit => Except.ok ())
    [fun _ => none, fun _ => some [(1 : ℚ)]] [] () () (by simp) rfl

/-- Claim C3: with zero loaded classifiers, `predict_image` fails with the
`NoModelsAvailable` condition deterministically on every call — for every
input image and every class map — never returning a result and never
failing with a different condition; and that condition is distinguishable
from the inference-failure condition. -/
theorem claim_C3_no_models_available {T Img : Type}
    (loadImg : Img → Except Unit T) (classMap : List (String × Int))
    (file : Img) :
    predict_image loadImg ([] : List (T → Option (List ℚ))) classMap file =
        Except.error PredError.noModelsAvailable ∧
      PredError.noModelsAvailable ≠ PredError.predictionFailed := by
  exact ⟨rfl, by decide⟩

/-- Claim C5: for every non-empty set of probability vectors of equal
positive length — each element nonnegative, elements summing to 1 — the
unweighted element-wise mean computed by `predict_image` is itself a valid
probability vector (each element ≥ 0, elements summing to 1), and the
returned confidence lies in [0, 1]. -/
theorem claim_C5_mean_is_probability_vector {T Img : Type}
    (loadImg : Img → Except Unit T) (models : List (T → Option (List ℚ)))
    (classMap : List (String × Int)) (file : Img) (t : T)
    (vs : List (List ℚ)) (n : Nat)
    (hL : loadImg file = Except.ok t)
    (hp : models.filterMap (fun m => m t) = vs)
    (hvs : vs ≠ []) (hn : 0 < n) (hlen : ∀ v ∈ vs, v.length = n)
    (hnn : ∀ v ∈ vs, ∀ x ∈ v, 0 ≤ x) (hsum1 : ∀ v ∈ vs, v.sum = 1) :
    (∀ j, j < n → 0 ≤ (avgList vs).getD j 0) ∧
    (avgList vs).sum = 1 ∧
    (∃ l c, predict_image loadImg models classMap file = Except.ok (l, c) ∧
      0 ≤ c ∧ c ≤ 1) := by
  have hhead : (vs.headD []).length = n := by
    rcases vs with _ | ⟨v, vrest⟩
    · exact absurd rfl hvs
    · exact hlen v (by simp)
  have hlenavg : (avgList vs).length = n := by rw [avgList_length, hhead]
  have havgne : avgList vs ≠ [] := by
    intro h
    rw [h] at hlenavg
    simp at hlenavg
    omega
  have hidxn : argmaxIdx (avgList vs) < n := by
    rw [← hlenavg]
    exact argmaxIdx_lt_length _ havgne
  have hL0 : (vs.length : ℚ) ≠ 0 := by
    rcases vs with _ | ⟨v, vr⟩
    · exact absurd rfl hvs
    · exact Nat.cast_ne_zero.mpr (by simp)
  have hnonneg : ∀ j, j < n → 0 ≤ (avgList vs).getD j 0 := by
    intro j hj
    rw [avgList_getD vs j (by rw [hhead]; exact hj)]
    exact div_nonneg (sumAt_nonneg vs j hnn) (Nat.cast_nonneg _)
  have hsum : (avgList vs).sum = 1 := by
    rw [avgList, hhead]
    have step1 : ((List.range n).map (fun i => avgAt vs i)) =
        (List.range n).map (fun i => sumAt vs i * ((vs.length : ℚ))⁻¹) := by
      simp [avgAt, div_eq_mul_inv]
    rw [step1, List.sum_map_mul_right, sum_range_sumAt vs n hlen,
      sum_map_sum_eq_length vs hsum1, mul_inv_cancel₀ hL0]
  have hmemnn : ∀ x ∈ avgList vs, 0 ≤ x := by
    intro x hx
    rcases List.mem_map.mp hx with ⟨j, hj, rfl⟩
    have hjn : j < n := by
      rw [← hhead]
      exact List.mem_range.mp hj
    have := hnonneg j hjn
    rwa [avgList_getD vs j (by rw [hhead]; exact hjn)] at this
  refine ⟨hnonneg, hsum, ?_⟩
  refine ⟨resolveLabel classMap (argmaxIdx (avgList vs)),
    maxVal (avgList vs),
    predict_image_ok loadImg models classMap file t vs hL hp hvs, ?_, ?_⟩
  · rw [maxVal_eq_getD_argmax _ havgne]
    exact hnonneg _ hidxn
  · rw [maxVal_eq_getD_argmax _ havgne]
    have hmem : (avgList vs).getD (argmaxIdx (avgList vs)) 0 ∈ avgList vs := by
      rw [List.getD_eq_getElem _ _ (by rw [hlenavg]; exact hidxn)]
      exact List.getElem_mem _
    calc (avgList vs).getD (argmaxIdx (avgList vs)) 0
        ≤ (avgList vs).sum := List.single_le_sum hmemnn _ hmem
      _ = 1 := hsum

/-- Claim C5 witness: the two probability vectors `[0.9, 0.1]` and
`[0.3, 0.7]` average to a valid probability vector and the confidence of
the prediction lies in [0, 1]. -/
theorem claim_C5_witness :
    (∀ j, j < 2 →
      0 ≤ (avgList [[(9 : ℚ)/10, 1/10], [(3 : ℚ)/10, 7/10]]).getD j 0) ∧
    (avgList [[(9 : ℚ)/10, 1/10], [(3 : ℚ)/10, 7/10]]).sum = 1 ∧
    (∃ l c, predict_image (fun _ : Unit => Except.ok ())
        [fun _ => some [(9 : ℚ)/10, 1/10], fun _ => some [(3 : ℚ)/10, 7/10]]
        [] () = Except.ok (l, c) ∧ 0 ≤ c ∧ c ≤ 1) :=
  claim_C5_mean_is_probability_vector (fun _ : Unit => Except.ok ())
    [fun _ => some [(9 : ℚ)/10, 1/10], fun _ => some [(3 : ℚ)/10, 7/10]]
    [] () () [[(9 : ℚ)/10, 1/10], [(3 : ℚ)/10, 7/10]] 2 rfl rfl
    (by simp) (by norm_num)
    (by
      intro v hv
      rcases List.mem_cons.mp hv with rfl | hv
      · rfl
      · rcases List.mem_cons.mp hv with rfl | hv
        · rfl
        · simp at hv)
    (by
      intro v hv
      rcases List.mem_cons.mp hv with rfl | hv
      · intro x hx
        rcases List.mem_cons.mp hx with rfl | hx
        · norm_num
        · rcases List.mem_cons.mp hx with rfl | hx
          · norm_num
          · simp at hx
      · rcases List.mem_cons.mp hv with rfl | hv
        · intro x hx
          rcases List.mem_cons.mp hx with rfl | hx
          · norm_num
          · rcases List.mem_cons.mp hx with rfl | hx
            · norm_num
            · simp at hx
        · simp at hv)
    (by
      intro v hv
      rcases List.mem_cons.mp hv with rfl | hv
      · norm_num
      · rcases List.mem_cons.mp hv with rfl | hv
        · norm_num
        · simp at hv)

/-- Claim C8: label resolution never fails: with no label map the index is
rendered as a string; with a map lacking an entry for the index the index
is rendered as a string; with a map containing the index (uniquely) the
mapped label string is returned. -/
theorem claim_C8_label_resolution_total (classMap : List (String × Int))
    (idx : Nat) (k : String) :
    (resolveLabel [] idx = toString idx) ∧
    ((∀ p ∈ classMap, p.2 ≠ Int.ofNat idx) →
      resolveLabel classMap idx = toString idx) ∧
    ((k, Int.ofNat idx) ∈ classMap →
      (∀ p ∈ classMap, p.2 = Int.ofNat idx → p.1 = k) →
      resolveLabel classMap idx = k) := by
  refine ⟨rfl, ?_, ?_⟩
  · intro hno
    rcases classMap with _ | ⟨a, rest⟩
    · rfl
    · have hfind : (a :: rest).reverse.find?
          (fun p => p.2 = Int.ofNat idx) = none := by
        rw [List.find?_eq_none]
        intro p hp
        simp only [decide_eq_true_eq]
        exact hno p (List.mem_reverse.mp hp)
      have h1 : resolveLabel (a :: rest) idx =
          dictGet (buildInv (a :: rest)) (Int.ofNat idx) (toString idx) := rfl
      rw [h1, dictGet_buildInv, hfind]
  · intro hmem huniq
    rcases classMap with _ | ⟨a, rest⟩
    · simp at hmem
    · have hex : ∃ q, (a :: rest).reverse.find?
          (fun p => p.2 = Int.ofNat idx) = some q := by
        have hs : ((a :: rest).reverse.find?
            (fun p => p.2 = Int.ofNat idx)).isSome := by
          rw [List.find?_isSome]
          exact ⟨(k, Int.ofNat idx), List.mem_reverse.mpr hmem, by simp⟩
        exact Option.isSome_iff_exists.mp hs
      rcases hex with ⟨q, hq⟩
      have hq2 : q.2 = Int.ofNat idx := by
        have := List.find?_some hq
        simpa using this
      have hqmem : q ∈ a :: rest :=
        List.mem_reverse.mp (List.mem_of_find?_eq_some hq)
      have hqk : q.1 = k := huniq q hqmem hq2
      have h1 : resolveLabel (a :: rest) idx =
          dictGet (buildInv (a :: rest)) (Int.ofNat idx) (toString idx) := rfl
      rw [h1, dictGet_buildInv, hq]
      exact hqk

/-- Claim C8 witness: a map containing the predicted index yields the
mapped label, and a map lacking it yields the index as a string. -/
theorem claim_C8_witness :
    resolveLabel [("mint", (3 : Int))] 3 = "mint" :=
  (claim_C8_label_resolution_total [("mint", (3 : Int))] 3 "mint").2.2
    (by simp)
    (by
      intro p hp h2
      rcases List.mem_cons.mp hp with rfl | hp
      · rfl
      · simp at hp)

/-- Claim C10: the code never enforces injectivity of the class map: with a
map assigning the same index to two different names, `predict_image` still
succeeds, and the predicted index resolves — through the inverted map built
with last-write-wins — to the name appearing last in the map's iteration
order among those sharing the index. -/
theorem claim_C10_last_write_wins {T Img : Type}
    (loadImg : Img → Except Unit T) (models : List (T → Option (List ℚ)))
    (classMap : List (String × Int)) (file : Img) (t : T)
    (vs : List (List ℚ)) (k : String) (i : Int)
    (hL : loadImg file = Except.ok t)
    (hp : models.filterMap (fun m => m t) = vs) (hvs : vs ≠ [])
    (hdup : ∃ k1 k2 j, k1 ≠ k2 ∧ (k1, j) ∈ classMap ∧ (k2, j) ∈ classMap)
    (hk : classMap.reverse.find?
        (fun p => p.2 = Int.ofNat (argmaxIdx (avgList vs))) = some (k, i)) :
    ∃ c, predict_image loadImg models classMap file = Except.ok (k, c) := by
  have hcm : classMap ≠ [] := by
    rcases hdup with ⟨k1, k2, j, hne, h1, h2⟩
    intro h
    rw [h] at h1
    simp at h1
  have hres : resolveLabel classMap (argmaxIdx (avgList vs)) = k := by
    have hie : classMap.isEmpty = false := by
      rcases classMap with _ | _
      · exact absurd rfl hcm
      · rfl
    simp only [resolveLabel, hie, Bool.not_false, if_true]
    rw [dictGet_buildInv, hk]
  exact ⟨maxVal (avgList vs), by
    rw [predict_image_ok loadImg models classMap file t vs hL hp hvs, hres]⟩

/-- Claim C10 witness: with the non-injective map
`[("first", 0), ("second", 0)]` and a single surviving vector `[1]`,
the prediction succeeds and resolves index 0 to "second", the name
appearing last among those sharing index 0. -/
theorem claim_C10_witness :
    ∃ c, predict_image (fun _ : Unit => Except.ok ())
      [fun _ => some [(1 : ℚ)]]
      [("first", (0 : Int)), ("second", (0 : Int))] () =
      Except.ok ("second", c) :=
  claim_C10_last_write_wins (fun _ : Unit => Except.ok ())
    [fun _ => some [(1 : ℚ)]] [("first", (0 : Int)), ("second", (0 : Int))]
    () () [[(1 : ℚ)]] "second" 0 rfl rfl (by simp)
    ⟨"first", "second", 0, by decide, by simp, by simp⟩
    (by rfl)

/-- A concrete OpenCV environment over numeric images in which no step
raises and the image file is unreadable (`imread` returns none). -/
def cvUnreadable : CV2 Nat Nat ℚ :=
  pureCV2 (fun _ => none) id id id (fun _ => []) id (fun _ => (0, 0, 0, 0))
    (fun m _ => m) id id

/-- Claim C9: `preprocess_image_if_available` returns True exactly when the
stored image file was overwritten — by the primary removal or by the
fallback crop — and whenever it returns False the image file content is
unchanged. -/
theorem claim_C9_bool_means_overwritten {Img Mat Contour : Type}
    (primary : Img → Except Unit Img) (cv : CV2 Img Mat Contour)
    (file : Img) :
    ((preprocess_image_if_available primary cv file).1 = false →
      (preprocess_image_if_available primary cv file).2 = file) ∧
    ((preprocess_image_if_available primary cv file).1 = true ↔
      (∃ out, primary file = Except.ok out) ∨
      (primary file = Except.error () ∧
        ∃ out, fallbackCrop cv file = Except.ok (some out))) ∧
    (∀ out, primary file = Except.ok out →
      (preprocess_image_if_available primary cv file).2 = out) ∧
    (∀ out, primary file = Except.error () →
      fallbackCrop cv file = Except.ok (some out) →
      (preprocess_image_if_available primary cv file).2 = out) := by
  cases hpri : primary file with
  | ok out =>
    simp [preprocess_image_if_available, hpri]
  | error e =>
    cases e
    cases hfb : fallbackCrop cv file with
    | ok o =>
      cases o with
      | none => simp [preprocess_image_if_available, hpri, hfb]
      | some out => simp [preprocess_image_if_available, hpri, hfb]
    | error e2 =>
      cases e2
      simp [preprocess_image_if_available, hpri, hfb]

/-- Claim C9 witness: with the primary unavailable and an unreadable file,
the function returns False and the file content 7 is unchanged. -/
theorem claim_C9_witness :
    (preprocess_image_if_available (fun _ => Except.error ())
      cvUnreadable 7).2 = 7 :=
  (claim_C9_bool_means_overwritten (fun _ => Except.error ())
    cvUnreadable 7).1 rfl

/-- Claim C4: when the fallback contour-crop strategy fails — unreadable
image, no contours found, or any step raising — it reports failure without
having modified the stored image; and when both strategies fail the
original image passes through unchanged and the orchestrator still reaches
inference on it. -/
theorem claim_C4_fallback_failure_passthrough {T Img Mat Contour : Type}
    (primary : Img → Except Unit Img) (cv : CV2 Img Mat Contour)
    (loadImg : Img → Except Unit T) (models : List (T → Option (List ℚ)))
    (classMap : List (String × Int)) (file : Img)
    (hpri : primary file = Except.error ())
    (hfail : cv.imread file = Except.ok none ∨
      (∃ img gray bl th, cv.imread file = Except.ok (some img) ∧
        cv.cvtColorGray img = Except.ok gray ∧
        cv.gaussianBlur5 gray = Except.ok bl ∧
        cv.thresholdOtsu bl = Except.ok th ∧
        cv.findContoursExt th = Except.ok ([] : List Contour)) ∨
      fallbackCrop cv file = Except.error ()) :
    preprocess_image_if_available primary cv file = (false, file) ∧
    classify primary cv loadImg models classMap file =
      predict_image loadImg models classMap file := by
  have hfb : fallbackCrop cv file = Except.ok none ∨
      fallbackCrop cv file = Except.error () := by
    rcases hfail with h | ⟨img, gray, bl, th, h1, h2, h3, h4, h5⟩ | h
    · exact Or.inl (fallbackCrop_imread_none cv file h)
    · exact Or.inl
        (fallbackCrop_no_contours cv file img gray bl th h1 h2 h3 h4 h5)
    · exact Or.inr h
  have hpre : preprocess_image_if_available primary cv file =
      (false, file) := by
    rcases hfb with h | h <;> simp [preprocess_image_if_available, hpri, h]
  refine ⟨hpre, ?_⟩
  simp only [classify, hpre]

/-- Claim C4 witness: primary unavailable and an unreadable file — the
original content 7 passes through unchanged and inference runs on it. -/
theorem claim_C4_witness :
    preprocess_image_if_available (fun _ => Except.error ())
        cvUnreadable 7 = (false, 7) ∧
    classify (fun _ => Except.error ()) cvUnreadable
        (fun n : Nat => Except.ok n) [fun _ => some [(1 : ℚ)]] [] 7 =
      predict_image (fun n : Nat => Except.ok n)
        [fun _ => some [(1 : ℚ)]] [] 7 :=
  claim_C4_fallback_failure_passthrough (fun _ => Except.error ())
    cvUnreadable (fun n : Nat => Except.ok n) [fun _ => some [(1 : ℚ)]]
    [] 7 rfl (Or.inl rfl)

/-- Claim C6: on its success path the fallback strategy performs exactly
the source's steps in order — grayscale, 5x5 Gaussian blur, Otsu threshold,
external contours, maximum-area contour, axis-aligned bounding box, crop of
the original image, resize to 224x224 — and overwrites the stored image
with the result; the selected contour is one of the extracted contours and
has maximal area among them. -/
theorem claim_C6_fallback_steps_in_order {Img Mat Contour : Type}
    (primary : Img → Except Unit Img) (imread : Img → Option Mat)
    (gray blur otsu : Mat → Mat) (contours : Mat → List Contour)
    (area : Contour → ℚ) (brect : Contour → Nat × Nat × Nat × Nat)
    (crop : Mat → Nat × Nat × Nat × Nat → Mat) (resize : Mat → Mat)
    (enc : Mat → Img) (file : Img) (img : Mat) (c0 : Contour)
    (cs : List Contour)
    (hpri : primary file = Except.error ())
    (h1 : imread file = some img)
    (h2 : contours (otsu (blur (gray img))) = c0 :: cs) :
    preprocess_image_if_available primary
        (pureCV2 imread gray blur otsu contours area brect crop resize enc)
        file =
      (true, enc (resize (crop img (brect (maxByKey area c0 cs))))) ∧
    maxByKey area c0 cs ∈ c0 :: cs ∧
    (∀ c ∈ c0 :: cs, area c ≤ area (maxByKey area c0 cs)) := by
  have hfb : fallbackCrop
      (pureCV2 imread gray blur otsu contours area brect crop resize enc)
      file =
      Except.ok (some (enc (resize (crop img
        (brect (maxByKey area c0 cs)))))) := by
    apply fallbackCrop_success
      (pureCV2 imread gray blur otsu contours area brect crop resize enc)
      file img (gray img) (blur (gray img)) (otsu (blur (gray img))) c0 cs
      (resize (crop img (brect (maxByKey area c0 cs))))
      (enc (resize (crop img (brect (maxByKey area c0 cs)))))
    · show Except.ok (imread file) = Except.ok (some img)
      rw [h1]
    · rfl
    · rfl
    · rfl
    · show Except.ok (contours (otsu (blur (gray img)))) =
        Except.ok (c0 :: cs)
      rw [h2]
    · rfl
    · rfl
  refine ⟨?_, ?_, ?_⟩
  · simp [preprocess_image_if_available, hpri, hfb]
  · rcases maxByKey_mem area c0 cs with h | h
    · rw [h]
      exact List.mem_cons_self _ _
    · exact List.mem_cons_of_mem _ h
  · intro c hc
    rcases List.mem_cons.mp hc with h | h
    · rw [h]
      exact (le_maxByKey area c0 cs).1
    · exact (le_maxByKey area c0 cs).2 c h

/-- Claim C6 witness: a concrete run of the fallback pipeline over numeric
images, with contours of areas 2 and 3: the larger contour is selected and
the stored image becomes the encoded resized crop. -/
theorem claim_C6_witness :
    preprocess_image_if_available (fun _ => Except.error ())
        (pureCV2 (fun n : Nat => some n) id id id (fun _ => [(2 : ℚ), 3])
          id (fun _ => (1, 2, 3, 4)) (fun m r => m + r.1) (fun m => m * 2)
          (fun m => m + 100))
        7 =
      (true, (fun m => m + 100) ((fun m : Nat => m * 2)
        ((fun (m : Nat) (r : Nat × Nat × Nat × Nat) => m + r.1) 7
          ((fun _ : ℚ => ((1 : Nat), (2 : Nat), (3 : Nat), (4 : Nat)))
            (maxByKey id 2 [(3 : ℚ)]))))) ∧
    maxByKey id 2 [(3 : ℚ)] ∈ [(2 : ℚ), 3] ∧
    (∀ c ∈ [(2 : ℚ), 3], id c ≤ id (maxByKey id 2 [(3 : ℚ)])) :=
  claim_C6_fallback_steps_in_order (fun _ => Except.error ())
    (fun n : Nat => some n) id id id (fun _ => [(2 : ℚ), 3]) id
    (fun _ => (1, 2, 3, 4)) (fun m r => m + r.1) (fun m => m * 2)
    (fun m => m + 100) 7 7 2 [3] rfl rfl rfl

/-- Claim C7: the preprocessor attempts the primary background removal
first — on success its output completely replaces the stored image content
whatever the fallback environment is — and when the primary is unavailable
or raises, the pipeline still completes and returns a label/confidence
pair. -/
theorem claim_C7_primary_first_pipeline_completes {T Img Mat Contour : Type}
    (primary : Img → Except Unit Img) (cv : CV2 Img Mat Contour)
    (loadImg : Img → Except Unit T) (models : List (T → Option (List ℚ)))
    (classMap : List (String × Int)) (file : Img)
    (hload : ∀ f : Img, ∃ u : T, loadImg f = Except.ok u)
    (hmod : ∀ u : T, models.filterMap (fun m => m u) ≠ []) :
    (∀ out, primary file = Except.ok out →
      ∀ cv2 : CV2 Img Mat Contour,
        preprocess_image_if_available primary cv2 file = (true, out)) ∧
    (primary file = Except.error () →
      ∃ l c, classify primary cv loadImg models classMap file =
        Except.ok (l, c)) := by
  constructor
  · intro out hok cv2
    simp [preprocess_image_if_available, hok]
  · intro herr
    rcases hload (preprocess_image_if_available primary cv file).2 with
      ⟨u, hu⟩
    cases hpred : models.filterMap (fun m => m u) with
    | nil => exact absurd hpred (hmod u)
    | cons v vrest =>
      exact ⟨_, _, predict_image_ok loadImg models classMap _ u (v :: vrest)
        hu hpred (by simp)⟩

/-- Claim C7 witness: with the primary segmentation capability absent, the
pipeline still completes on the fallback (here a no-op) and returns a
label/confidence pair. -/
theorem claim_C7_witness :
    ∃ l c, classify (fun _ => Except.error ()) cvUnreadable
      (fun n : Nat => Except.ok n) [fun _ => some [(1 : ℚ)]] [] 7 =
      Except.ok (l, c) :=
  (claim_C7_primary_first_pipeline_completes (fun _ => Except.error ())
    cvUnreadable (fun n : Nat => Except.ok n) [fun _ => some [(1 : ℚ)]]
    [] 7 (fun f => ⟨f, rfl⟩) (by intro u; simp)).2 rfl

end MedicinalLeaf
